import Mathlib

/- Formal verification development for the mzsocket repository
   (src/src/lib.rs, src/src/safe.rs, src/src/structs.rs): a shallow
   embedding of its address-marshalling layer, socket-handle lifecycle,
   and dotted-quad parser, together with theorems settling the
   specification claims.

   The repository contains two revisions of the marshalling code: the
   crate root lib.rs (self-contained) and the modular safe.rs/structs.rs
   pair.  Where the two revisions differ (the Unix path copy loop), both
   are embedded, with the source file named in each doc comment.

   Machine integers are modelled as Nat (all the values involved are
   unsigned and no operation here overflows its Rust type: the u32
   composition in inet_addr keeps every operand below 2^32, and the
   byte-level operations stay below 2^8).  Rust i32/i64 return codes are
   modelled as Int.  A Rust panic is modelled as Option.none. -/

namespace Mzsocket

/-! ## Data model (lib.rs 183-282, structs.rs 25-203) -/

/-- The AddressFamily enum (lib.rs 194-199, structs.rs 36-41). -/
inductive AddressFamily where
  | Unspec
  | Unix
  | Inet
  | Inet6
  deriving DecidableEq

/-- Numeric value of an AddressFamily, i.e. the declared Rust
discriminant produced by the cast to u16 (Unspec = 0, Unix = 1,
Inet = 2, Inet6 = 10). -/
def AddressFamily.toNat : AddressFamily → Nat
  | .Unspec => 0
  | .Unix => 1
  | .Inet => 2
  | .Inet6 => 10

/-- The BindFamily enum (lib.rs 185-189): the bind/connect target.  The
Unix path String is modelled by its byte sequence (path.bytes()), an
IPv4 target by its 32-bit address and 16-bit port, an IPv6 target by
its 128-bit address and 16-bit port. -/
inductive BindFamily where
  | Unix (path : List Nat)
  | Inet (addr port : Nat)
  | Inet6 (addr port : Nat)

/-- The InetSockAddr wire record (lib.rs 228-234): family, port, 32-bit
address, and the 8-byte reserved tail. -/
structure InetSockAddr where
  family : Nat
  port : Nat
  addr : Nat
  reserved : Nat
  deriving DecidableEq

/-- The Inet6SockAddr wire record (lib.rs 246-253): family, port,
flowinfo, the 16-byte address field, and scopeid. -/
structure Inet6SockAddr where
  family : Nat
  port : Nat
  flowinfo : Nat
  addr : List Nat
  scopeid : Nat
  deriving DecidableEq

/-- UNIX_PATH_LEN constant (lib.rs 267, structs.rs 188). -/
def UNIX_PATH_LEN : Nat := 108

/-- The UnixSockAddr wire record (lib.rs 268-272): family and the
108-byte path buffer. -/
structure UnixSockAddr where
  family : Nat
  path : List Nat
  deriving DecidableEq

/-- A constructed wire record of any of the three families, paired
nowhere; used to compare the bind and connect marshalling paths. -/
inductive SockAddrRec where
  | inet (r : InetSockAddr)
  | inet6 (r : Inet6SockAddr)
  | unix (r : UnixSockAddr)
  deriving DecidableEq

/-- Byte size of InetSockAddr under repr(C): u16, u16, u32 at offsets
0, 2, 4 and the u64 at offset 8, total 16 bytes.  This is the
compile-time value of the Rust expression size_of on InetSockAddr. -/
def sizeOfInetSockAddr : Nat := 16

/-- Byte size of Inet6SockAddr under repr(C): u16, u16, u32, 16 bytes,
u32 at offsets 0, 2, 4, 8, 24, total 28 bytes. -/
def sizeOfInet6SockAddr : Nat := 28

/-- Byte size of UnixSockAddr under repr(C): u16 then 108 bytes, total
110 bytes. -/
def sizeOfUnixSockAddr : Nat := 110

/-! ## Byte-order primitives

The spec (section 6) has the marshalling layer consume the platform's
host-to-network conversion primitives; they are declared extern in
lib.rs 38-39 and are not part of the repository's own sources. -/

/-- Modelled from the spec: htons, the platform 16-bit host-to-network
byte-order primitive (spec section 6; network order is big-endian and
the reference platform is little-endian), i.e. the two-byte swap of a
16-bit value. -/
def htons (x : Nat) : Nat :=
  x % 256 * 256 + x / 256 % 256

/-- Modelled from the spec: htonl, the platform 32-bit host-to-network
byte-order primitive (spec section 6), i.e. the four-byte reversal of a
32-bit value. -/
def htonl (x : Nat) : Nat :=
  x % 256 * 2 ^ 24 + x / 2 ^ 8 % 256 * 2 ^ 16 + x / 2 ^ 16 % 256 * 2 ^ 8 + x / 2 ^ 24 % 256

/-- Little-endian in-memory bytes of a 16-bit field on the reference
platform. -/
def leBytes16 (x : Nat) : List Nat :=
  [x % 256, x / 256 % 256]

/-- Big-endian (network order) bytes of a 16-bit value. -/
def beBytes16 (x : Nat) : List Nat :=
  [x / 256 % 256, x % 256]

/-- Little-endian in-memory bytes of a 32-bit field on the reference
platform. -/
def leBytes32 (x : Nat) : List Nat :=
  [x % 256, x / 2 ^ 8 % 256, x / 2 ^ 16 % 256, x / 2 ^ 24 % 256]

/-- Big-endian (network order) bytes of a 32-bit value. -/
def beBytes32 (x : Nat) : List Nat :=
  [x / 2 ^ 24 % 256, x / 2 ^ 16 % 256, x / 2 ^ 8 % 256, x % 256]

/-- Big-endian byte sequence of a 128-bit value: byte j is bits
8*(15-j) .. 8*(15-j)+7 of the value. -/
def beBytes128 (x : Nat) : List Nat :=
  [x / 2 ^ 120 % 256, x / 2 ^ 112 % 256, x / 2 ^ 104 % 256, x / 2 ^ 96 % 256,
   x / 2 ^ 88 % 256, x / 2 ^ 80 % 256, x / 2 ^ 72 % 256, x / 2 ^ 64 % 256,
   x / 2 ^ 56 % 256, x / 2 ^ 48 % 256, x / 2 ^ 40 % 256, x / 2 ^ 32 % 256,
   x / 2 ^ 24 % 256, x / 2 ^ 16 % 256, x / 2 ^ 8 % 256, x % 256]

/-! ## Record construction (safe.rs 55-130, lib.rs 296-367) -/

/-- The 16-entry byte array built by bind_inet6 and by the Inet6 arm of
safe_connect (safe.rs 72-89 and 149-166, lib.rs 313-330 and 386-403):
entry j is (ipaddr shifted right by 120 - 8*j) masked with 0xFF. -/
def inet6Bytes (ipaddr : Nat) : List Nat :=
  [(ipaddr >>> 120) &&& 0xFF, (ipaddr >>> 112) &&& 0xFF,
   (ipaddr >>> 104) &&& 0xFF, (ipaddr >>> 96) &&& 0xFF,
   (ipaddr >>> 88) &&& 0xFF, (ipaddr >>> 80) &&& 0xFF,
   (ipaddr >>> 72) &&& 0xFF, (ipaddr >>> 64) &&& 0xFF,
   (ipaddr >>> 56) &&& 0xFF, (ipaddr >>> 48) &&& 0xFF,
   (ipaddr >>> 40) &&& 0xFF, (ipaddr >>> 32) &&& 0xFF,
   (ipaddr >>> 24) &&& 0xFF, (ipaddr >>> 16) &&& 0xFF,
   (ipaddr >>> 8) &&& 0xFF, ipaddr &&& 0xFF]

/-- The InetSockAddr record built by bind_inet (safe.rs 57-62,
lib.rs 298-303). -/
def bind_inet_rec (ipaddr port : Nat) : InetSockAddr :=
  { family := AddressFamily.Inet.toNat
    port := htons port
    addr := htonl ipaddr
    reserved := 0 }

/-- The Inet6SockAddr record built by bind_inet6 (safe.rs 91-97,
lib.rs 332-338). -/
def bind_inet6_rec (ipaddr port : Nat) : Inet6SockAddr :=
  { family := AddressFamily.Inet6.toNat
    port := htons port
    flowinfo := 0
    addr := inet6Bytes ipaddr
    scopeid := 0 }

/-- The stpath buffer built by bind_unix in safe.rs 106-117: size is
the path length capped at UNIX_PATH_LEN - 1 = 107; the loop writes
stpath[i] = bytes.next().unwrap() for i in 0..size, so the i-th
iteration receives byte i of the path (the unwrap always succeeds since
size is at most the byte count); stpath[size] is then set to 0 and the
remaining entries keep their initial 0. -/
def bind_unix_stpath (path : List Nat) : List Nat :=
  let size := if path.length < UNIX_PATH_LEN - 1 then path.length else UNIX_PATH_LEN - 1
  let stpath := List.replicate UNIX_PATH_LEN 0
  let stpath := (List.range size).foldl (fun st i => st.set i (path.getD i 0)) stpath
  stpath.set size 0

/-- The UnixSockAddr record built by bind_unix in safe.rs 120-123. -/
def bind_unix_rec (path : List Nat) : UnixSockAddr :=
  { family := AddressFamily.Unix.toNat
    path := bind_unix_stpath path }

/-- One call of Rust Iterator nth n on a byte iterator whose remaining
bytes are the given list: skip n bytes, then yield the next byte and
the iterator's new remainder; none when fewer than n + 1 bytes remain
(so unwrap on the result models the panic). -/
def iterNth (l : List Nat) (n : Nat) : Option (Nat × List Nat) :=
  match l.drop n with
  | [] => none
  | b :: rest => some (b, rest)

/-- The copy loop shared by lib.rs bind_unix (lines 351-353) and by the
Unix arm of safe_connect (safe.rs 184-186, lib.rs 421-423): for i in
0..size it writes stpath[i] = bytes.nth(i).unwrap(), the iterator state
threading from one call to the next.  The first argument is the number
of iterations left, the second the current index i, then the iterator
remainder and the buffer.  none models the unwrap panic. -/
def nthCopy : Nat → Nat → List Nat → List Nat → Option (List Nat)
  | 0, _, _, st => some st
  | k + 1, i, iter, st =>
    match iterNth iter i with
    | none => none
    | some (b, iter2) => nthCopy k (i + 1) iter2 (st.set i b)

/-- The stpath buffer built by bind_unix in lib.rs 347-354: same size
computation as the safe.rs revision, but the copy loop uses
bytes.nth(i), which consumes i + 1 bytes per call. -/
def bind_unix_stpath_lib (path : List Nat) : Option (List Nat) :=
  let size := if path.length < UNIX_PATH_LEN - 1 then path.length else UNIX_PATH_LEN - 1
  (nthCopy size 0 path (List.replicate UNIX_PATH_LEN 0)).map (fun st => st.set size 0)

/-- The stpath buffer built by the Unix arm of safe_connect
(safe.rs 181-187, lib.rs 418-424): size is the path length when it is
at most 107, else 107, and the copy loop uses bytes.nth(i). -/
def connect_unix_stpath (path : List Nat) : Option (List Nat) :=
  let size := if path.length ≤ 107 then path.length else 107
  (nthCopy size 0 path (List.replicate 108 0)).map (fun st => st.set size 0)

/-- The record and declared byte size submitted by safe_bind
(safe.rs 47-53, dispatching to bind_inet, bind_inet6 and the safe.rs
revision of bind_unix, each of which passes the compile-time structure
size to the bind call). -/
def safe_bind_marshal : BindFamily → SockAddrRec × Nat
  | .Inet addr port => (.inet (bind_inet_rec addr port), sizeOfInetSockAddr)
  | .Inet6 addr port => (.inet6 (bind_inet6_rec addr port), sizeOfInet6SockAddr)
  | .Unix path => (.unix (bind_unix_rec path), sizeOfUnixSockAddr)

/-- The record and declared byte size submitted by safe_connect
(safe.rs 132-200, lib.rs 369-437; the two files agree on this
function).  Each arm constructs its record inline; the Unix arm's copy
loop can panic, modelled by none. -/
def safe_connect_marshal : BindFamily → Option (SockAddrRec × Nat)
  | .Inet addr port =>
    some (.inet { family := AddressFamily.Inet.toNat
                  port := htons port
                  addr := htonl addr
                  reserved := 0 }, sizeOfInetSockAddr)
  | .Inet6 ipaddr port =>
    some (.inet6 { family := AddressFamily.Inet6.toNat
                   port := htons port
                   flowinfo := 0
                   addr := inet6Bytes ipaddr
                   scopeid := 0 }, sizeOfInet6SockAddr)
  | .Unix path =>
    (connect_unix_stpath path).map
      (fun st => (.unix { family := AddressFamily.Unix.toNat, path := st }, sizeOfUnixSockAddr))

/-! ## Socket handle operations (lib.rs 44-181) -/

/-- Outcome of acceptinet (lib.rs 74-86) as a function of the raw OS
return value ret (an i32; the usize round trip in the source recovers
the same value) and the length slen written back by the OS: when slen
differs from the InetSockAddr size the call fails with ret as the error
payload, otherwise it succeeds with a new handle holding ret and the
peer record. -/
def acceptinet (ret : Int) (slen : Nat) (isaddr : InetSockAddr) :
    Except Int (Int × InetSockAddr) :=
  if slen ≠ sizeOfInetSockAddr then .error ret else .ok (ret, isaddr)

/-- Outcome of acceptinet6 (lib.rs 88-100), as for acceptinet with the
Inet6SockAddr size. -/
def acceptinet6 (ret : Int) (slen : Nat) (isaddr : Inet6SockAddr) :
    Except Int (Int × Inet6SockAddr) :=
  if slen ≠ sizeOfInet6SockAddr then .error ret else .ok (ret, isaddr)

/-- Outcome of acceptunix (lib.rs 102-114), as for acceptinet with the
UnixSockAddr size. -/
def acceptunix (ret : Int) (slen : Nat) (isaddr : UnixSockAddr) :
    Except Int (Int × UnixSockAddr) :=
  if slen ≠ sizeOfUnixSockAddr then .error ret else .ok (ret, isaddr)

/-- Outcome of Socket read (lib.rs 125-134) as a function of the raw OS
return value: negative becomes the error, non-negative the success
value. -/
def socketRead (ret : Int) : Except Int Int :=
  if ret < 0 then .error ret else .ok ret

/-- Outcome of Socket write (lib.rs 136-146), same shape as read. -/
def socketWrite (ret : Int) : Except Int Int :=
  if ret < 0 then .error ret else .ok ret

/-- The O_NONBLOCK flag bit used by setblocking (lib.rs 151). -/
def O_NONBLOCK : Nat := 0o4000

/-- The flag word written back by setblocking (lib.rs 148-162), as a
function of the flag word read by the F_GETFL fcntl call: block = true
clears the O_NONBLOCK bit (bitwise and with the 32-bit complement of
O_NONBLOCK, the flag word being a 32-bit c_int), block = false sets
it. -/
def setblocking (flags : Nat) (block : Bool) : Nat :=
  if block then flags &&& (0xFFFFFFFF ^^^ O_NONBLOCK) else flags ||| O_NONBLOCK

/-- Descriptors released by one call of Socket close (lib.rs 172-174):
it unconditionally calls safe_close on the owned descriptor. -/
def socketCloseReleases (fd : Int) : List Int := [fd]

/-- Descriptors released by the Drop implementation (lib.rs 177-181):
drop unconditionally calls self.close(). -/
def socketDropReleases (fd : Int) : List Int := socketCloseReleases fd

/-- Descriptors released over a handle's whole lifetime in an execution
with n explicit close() calls followed by the handle going out of scope
(each explicit call contributes socketCloseReleases, the scope exit
contributes socketDropReleases). -/
def lifetimeReleases (fd : Int) : Nat → List Int
  | 0 => socketDropReleases fd
  | n + 1 => socketCloseReleases fd ++ lifetimeReleases fd n

/-! ## The dotted-quad parser (lib.rs 445-455)

Rust str values are modelled as lists of characters; the parser only
ever meets ASCII inputs where chars and bytes coincide. -/

/-- The split of a character list at every '.' character, as produced
by the Rust split call in inet_addr (lib.rs 446): adjacent separators
and separators at either end yield empty segments, and the empty input
yields one empty segment. -/
def splitDots : List Char → List (List Char)
  | [] => [[]]
  | c :: rest =>
    if c = '.' then [] :: splitDots rest
    else
      match splitDots rest with
      | seg :: segs => (c :: seg) :: segs
      | [] => [[c]]

/-- Rust str parse to u8 (lib.rs 448): an optional leading plus sign
followed by one or more ASCII digits whose value fits in a u8; anything
else fails.  The accepted set and the value coincide with the Rust
parser (Rust detects overflow during accumulation, which rejects
exactly the all-digit inputs whose value exceeds 255). -/
def parseU8 (s : List Char) : Option Nat :=
  let t := match s with
    | '+' :: rest => rest
    | _ => s
  if t = [] then none
  else if t.all Char.isDigit then
    let v := t.foldl (fun a c => a * 10 + (c.toNat - 48)) 0
    if v ≤ 255 then some v else none
  else none

/-- The inet_addr parser of lib.rs 445-455: split on '.', lazily map
u8 parsing over the segments, then draw four values and combine them
with shifts and bitwise or.  none models a panic: either an unwrap of a
failed parse among the first four segments, or an unwrap of a missing
segment when fewer than four exist.  Segments past the fourth are never
drawn from the lazy iterator, hence never parsed.  All arithmetic is
within u32 range since each parsed value is at most 255. -/
def inet_addr (s : List Char) : Option Nat :=
  match splitDots s with
  | a :: b :: c :: d :: _ =>
    match parseU8 a, parseU8 b, parseU8 c, parseU8 d with
    | some x, some y, some z, some w => some (x <<< 24 ||| y <<< 16 ||| z <<< 8 ||| w)
    | _, _, _, _ => none
  | _ => none

/-- Left-to-right u8 parsing of a segment list with a running 0-based
index: the first segment that fails to parse yields its index as the
error, otherwise the list of parsed values is returned. -/
def parseOctets : List (List Char) → Nat → Except Nat (List Nat)
  | [], _ => .ok []
  | s :: rest, i =>
    match parseU8 s with
    | none => .error i
    | some v =>
      match parseOctets rest (i + 1) with
      | .error e => .error e
      | .ok vs => .ok (v :: vs)

/-- Combination of up to four octets into a 32-bit value, most
significant octet first; absent octets count as 0. -/
def combine4 (vs : List Nat) : Nat :=
  vs.getD 0 0 * 2 ^ 24 + vs.getD 1 0 * 2 ^ 16 + vs.getD 2 0 * 2 ^ 8 + vs.getD 3 0

/-- Modelled from the spec: the canonical dotted-quad parser of spec
section 4.4.  The repository holds several revisions of this parser and
only the panicking one is under src/ (lib.rs 445-455); the canonical
revision — the one that reports the 0-based index of the first segment
among the first four that fails to parse as an unsigned integer of at
most 255, tolerates fewer than four segments by treating the missing
trailing octets as 0, and ignores segments past the fourth — is
modelled here from the spec's words. -/
def inet_addr_spec (s : List Char) : Except Nat Nat :=
  match parseOctets ((splitDots s).take 4) 0 with
  | .error i => .error i
  | .ok vs => .ok (combine4 vs)

/-! ## Helper lemmas -/

/-- Length preservation of the sequential set loop. -/
theorem setLoop_length (f : Nat → Nat) (n : Nat) (st : List Nat) :
    ((List.range n).foldl (fun acc i => acc.set i (f i)) st).length = st.length := by
  induction n with
  | zero => rfl
  | succ n ih =>
    rw [List.range_succ, List.foldl_append]
    simp [List.length_set, ih]

/-- Entry j of the sequential set loop: overwritten with f j below n,
untouched otherwise. -/
theorem setLoop_getElem (f : Nat → Nat) (n : Nat) (st : List Nat) (j : Nat) :
    ((List.range n).foldl (fun acc i => acc.set i (f i)) st)[j]? =
      if j < n ∧ j < st.length then some (f j) else st[j]? := by
  induction n with
  | zero => simp
  | succ n ih =>
    rw [List.range_succ, List.foldl_append]
    simp only [List.foldl_cons, List.foldl_nil]
    rw [List.getElem?_set, setLoop_length, ih]
    rcases eq_or_ne n j with h1 | h1
    · subst h1
      rcases Nat.lt_or_ge n st.length with h2 | h2
      · simp [h2, Nat.lt_succ_self]
      · have hnone : st[n]? = none := List.getElem?_eq_none (by omega)
        simp [hnone, Nat.not_lt.mpr h2, Nat.lt_succ_self]
    · have hiff : (j < n + 1 ∧ j < st.length) ↔ (j < n ∧ j < st.length) := by omega
      simp [h1, hiff]

/-- The safe.rs bind_unix buffer is the truncated path followed by NUL
padding to 108 bytes. -/
theorem bind_unix_stpath_eq (path : List Nat) :
    bind_unix_stpath path =
      path.take (min path.length 107) ++ List.replicate (108 - min path.length 107) 0 := by
  have hm : (if path.length < 108 - 1 then path.length else 108 - 1) =
      min path.length 107 := by
    split <;> omega
  apply List.ext_getElem?
  intro j
  simp only [bind_unix_stpath, UNIX_PATH_LEN]
  rw [hm, List.getElem?_set, setLoop_length, setLoop_getElem]
  simp only [List.length_replicate, List.getElem?_replicate, List.getElem?_append,
    List.getElem?_take, List.length_take]
  rcases Nat.lt_or_ge j 108 with hj | hj
  · rcases Nat.lt_or_ge j (min path.length 107) with hjm | hjm
    · have hne : min path.length 107 ≠ j := by omega
      have hjp : j < path.length := by omega
      rw [if_neg hne, if_pos ⟨by omega, by omega⟩, if_pos (by omega),
        if_pos (by omega), List.getElem?_eq_getElem hjp,
        List.getD_eq_getElem?_getD, List.getElem?_eq_getElem hjp]
      rfl
    · rcases eq_or_ne (min path.length 107) j with he | he
      · rw [if_pos he, if_pos (by omega), if_neg (by omega), if_pos (by omega)]
      · rw [if_neg he, if_neg (by omega), if_pos (by omega), if_neg (by omega),
          if_pos (by omega)]
  · have hne : min path.length 107 ≠ j := by omega
    rw [if_neg hne, if_neg (by omega), if_neg (by omega), if_neg (by omega),
      if_neg (by omega)]

/-- Bit i of a sum whose left part is a multiple of 2 to the n and
whose right part lies below 2 to the n. -/
theorem testBit_two_pow_mul_add (c b n i : Nat) (hb : b < 2 ^ n) :
    (2 ^ n * c + b).testBit i = if i < n then b.testBit i else c.testBit (i - n) := by
  rcases Nat.lt_or_ge i n with h | h
  · rw [if_pos h]
    have hpow : (2 : Nat) ^ i * 2 ^ (n - i) = 2 ^ n := by
      rw [← Nat.pow_add]
      congr 1
      omega
    have hsplit : 2 ^ n * c + b = b + 2 ^ i * (2 ^ (n - i) * c) := by
      rw [← Nat.mul_assoc, hpow]
      ring
    have hpow2 : (2 : Nat) ^ (n - i) = 2 * 2 ^ (n - i - 1) := by
      conv_lhs => rw [show n - i = n - i - 1 + 1 from by omega]
      rw [Nat.pow_succ, Nat.mul_comm]
    have key : (2 ^ n * c + b) / 2 ^ i % 2 = b / 2 ^ i % 2 := by
      rw [hsplit, Nat.add_mul_div_left _ _ (Nat.two_pow_pos i), hpow2, Nat.mul_assoc]
      omega
    simp [Nat.testBit_to_div_mod, key]
  · rw [if_neg (by omega)]
    have hpow : (2 : Nat) ^ n * 2 ^ (i - n) = 2 ^ i := by
      rw [← Nat.pow_add]
      congr 1
      omega
    have key : (2 ^ n * c + b) / 2 ^ i = c / 2 ^ (i - n) := by
      rw [← hpow, ← Nat.div_div_eq_div_mul, Nat.add_comm,
        Nat.add_mul_div_left _ _ (Nat.two_pow_pos n), Nat.div_eq_of_lt hb]
      simp
    simp [Nat.testBit_to_div_mod, key]

/-- Bitwise or of disjoint operands is addition: the left operand a
multiple of 2 to the n, the right operand below it. -/
theorem lor_eq_add_of_dvd (a b n : Nat) (ha : 2 ^ n ∣ a) (hb : b < 2 ^ n) :
    a ||| b = a + b := by
  obtain ⟨c, rfl⟩ := ha
  apply Nat.eq_of_testBit_eq
  intro i
  rw [Nat.testBit_lor, testBit_two_pow_mul_add c b n i hb]
  rcases Nat.lt_or_ge i n with h | h
  · rw [if_pos h]
    have hni : ¬ n ≤ i := by omega
    have hc : (2 ^ n * c).testBit i = false := by
      rw [Nat.mul_comm, ← Nat.shiftLeft_eq, Nat.testBit_shiftLeft]
      simp [hni]
    rw [hc]
    simp
  · rw [if_neg (by omega)]
    have hbf : b.testBit i = false :=
      Nat.testBit_eq_false_of_lt (lt_of_lt_of_le hb (Nat.pow_le_pow_right (by norm_num) h))
    have hc : (2 ^ n * c).testBit i = c.testBit (i - n) := by
      rw [Nat.mul_comm, ← Nat.shiftLeft_eq, Nat.testBit_shiftLeft]
      simp [h]
    rw [hbf, hc]
    simp

/-- The shift-and-or octet composition used by inet_addr equals the
positional sum when each octet is below 256. -/
theorem quad_compose (x y z w : Nat) (hy : y ≤ 255) (hz : z ≤ 255) (hw : w ≤ 255) :
    x <<< 24 ||| y <<< 16 ||| z <<< 8 ||| w = x * 2 ^ 24 + y * 2 ^ 16 + z * 2 ^ 8 + w := by
  rw [Nat.shiftLeft_eq, Nat.shiftLeft_eq, Nat.shiftLeft_eq]
  rw [lor_eq_add_of_dvd (x * 2 ^ 24) (y * 2 ^ 16) 24 (dvd_mul_left _ _)
    (by norm_num; omega)]
  rw [lor_eq_add_of_dvd (x * 2 ^ 24 + y * 2 ^ 16) (z * 2 ^ 8) 16
    (dvd_add ⟨x * 2 ^ 8, by ring⟩ (dvd_mul_left _ _)) (by norm_num; omega)]
  rw [lor_eq_add_of_dvd (x * 2 ^ 24 + y * 2 ^ 16 + z * 2 ^ 8) w 8
    (dvd_add (dvd_add ⟨x * 2 ^ 16, by ring⟩ ⟨y * 2 ^ 8, by ring⟩) (dvd_mul_left _ _))
    (by omega)]

/-- Byte extraction from a two-byte positional sum. -/
theorem swap16_bytes (r s : Nat) (hr : r < 256) (hs : s < 256) :
    (r * 256 + s) % 256 = s ∧ (r * 256 + s) / 256 % 256 = r := by
  omega

/-- Byte extraction from a four-byte positional sum. -/
theorem swap32_bytes (a b c d : Nat) (ha : a < 256) (hb : b < 256) (hc : c < 256)
    (hd : d < 256) :
    (a * 2 ^ 24 + b * 2 ^ 16 + c * 2 ^ 8 + d) % 256 = d
  ∧ (a * 2 ^ 24 + b * 2 ^ 16 + c * 2 ^ 8 + d) / 2 ^ 8 % 256 = c
  ∧ (a * 2 ^ 24 + b * 2 ^ 16 + c * 2 ^ 8 + d) / 2 ^ 16 % 256 = b
  ∧ (a * 2 ^ 24 + b * 2 ^ 16 + c * 2 ^ 8 + d) / 2 ^ 24 % 256 = a := by
  norm_num
  omega

/-- Masking with 0xFF is reduction modulo 256. -/
theorem and255 (t : Nat) : t &&& 255 = t % 256 := by
  have h := Nat.and_pow_two_sub_one_eq_mod t 8
  norm_num at h
  exact h

/-- The byte array built by the IPv6 marshalling code is the big-endian
byte sequence of the address. -/
theorem inet6Bytes_be (a : Nat) : inet6Bytes a = beBytes128 a := by
  simp only [inet6Bytes, beBytes128, Nat.shiftRight_eq_div_pow, and255]

/-- A value accepted by the u8 parser is at most 255. -/
theorem parseU8_le (s : List Char) (v : Nat) (h : parseU8 s = some v) : v ≤ 255 := by
  simp only [parseU8] at h
  split at h
  · simp at h
  · split at h
    · split at h
      · injection h with h2
        omega
      · simp at h
    · simp at h

/-- Evaluation of inet_addr on an input whose first four segments
parse. -/
theorem inet_addr_eval (s a b c d : List Char) (rest : List (List Char)) (x y z w : Nat)
    (hs : splitDots s = a :: b :: c :: d :: rest)
    (ha : parseU8 a = some x) (hb : parseU8 b = some y)
    (hc : parseU8 c = some z) (hd : parseU8 d = some w) :
    inet_addr s = some (x <<< 24 ||| y <<< 16 ||| z <<< 8 ||| w) := by
  simp only [inet_addr, hs, ha, hb, hc, hd]

/-- The indexed octet parse fails with the index of the first failing
segment. -/
theorem parseOctets_error (l : List (List Char)) :
    ∀ (i k : Nat), k < l.length →
      (∀ j, j < k → (parseU8 (l.getD j [])).isSome) →
      parseU8 (l.getD k []) = none →
      parseOctets l i = .error (i + k) := by
  induction l with
  | nil =>
    intro i k hk _ _
    simp at hk
  | cons s rest ih =>
    intro i k hk hall hfail
    cases k with
    | zero =>
      simp only [List.getD_cons_zero] at hfail
      simp [parseOctets, hfail]
    | succ k =>
      have h0 : (parseU8 s).isSome := by simpa using hall 0 (Nat.succ_pos k)
      obtain ⟨v, hv⟩ := Option.isSome_iff_exists.mp h0
      have hrec := ih (i + 1) k (by simpa using hk)
        (fun j hj => by simpa using hall (j + 1) (by omega))
        (by simpa using hfail)
      simp only [parseOctets, hv, hrec]
      congr 1
      omega

/-- The indexed octet parse succeeds, with one value per segment, when
every segment parses. -/
theorem parseOctets_ok (l : List (List Char)) :
    ∀ i : Nat, (∀ j, j < l.length → (parseU8 (l.getD j [])).isSome) →
      ∃ vs, parseOctets l i = .ok vs ∧ vs.length = l.length := by
  induction l with
  | nil =>
    intro i _
    exact ⟨[], rfl, rfl⟩
  | cons s rest ih =>
    intro i hall
    have h0 : (parseU8 s).isSome := by simpa using hall 0 (by simp)
    obtain ⟨v, hv⟩ := Option.isSome_iff_exists.mp h0
    obtain ⟨vs, hvs, hlen⟩ := ih (i + 1)
      (fun j hj => by simpa using hall (j + 1) (by simpa using hj))
    exact ⟨v :: vs, by simp [parseOctets, hv, hvs], by simp [hlen]⟩

/-- Combining fewer than four octets leaves the missing low-order
octets zero. -/
theorem combine4_pad (vs : List Nat) (h : vs.length < 4) :
    combine4 vs % 2 ^ (8 * (4 - vs.length)) = 0 := by
  rcases vs with _ | ⟨a, _ | ⟨b, _ | ⟨c, _ | ⟨d, rest⟩⟩⟩⟩
  · simp [combine4]
  · simp only [combine4, List.getD_cons_zero, List.getD_cons_succ, List.getD_nil,
      List.length_cons, List.length_nil]
    norm_num
  · simp only [combine4, List.getD_cons_zero, List.getD_cons_succ, List.getD_nil,
      List.length_cons, List.length_nil]
    norm_num
    omega
  · simp only [combine4, List.getD_cons_zero, List.getD_cons_succ, List.getD_nil,
      List.length_cons, List.length_nil]
    norm_num
    omega
  · simp at h
    omega

/-! ## Claim theorems -/

/-- C1: the safe.rs bind_unix buffer holds the first min(length, 107)
bytes of the path followed by a NUL terminator inside the 108-byte
buffer, for every path length; the lib.rs revision of bind_unix,
however, panics on the two-byte path "ab" because its copy loop uses
nth(i) in place of next(). -/
theorem bind_unix_truncation :
    (∀ path : List Nat,
        bind_unix_stpath path =
          path.take (min path.length 107) ++ List.replicate (108 - min path.length 107) 0)
  ∧ bind_unix_stpath_lib [97, 98] = none :=
  ⟨bind_unix_stpath_eq, by decide⟩

/-- C2: every accept variant fails exactly when the written-back length
differs from the compile-time size of its wire record, regardless of
the sign of the raw OS return value, the error payload being that raw
value; on a length match it returns the raw value as the new handle
together with the peer record. -/
theorem accept_length_check :
    ∀ (ret : Int) (slen : Nat) (a4 : InetSockAddr) (a6 : Inet6SockAddr) (au : UnixSockAddr),
      (acceptinet ret slen a4 = .error ret ↔ slen ≠ sizeOfInetSockAddr)
    ∧ (acceptinet ret slen a4 = .ok (ret, a4) ↔ slen = sizeOfInetSockAddr)
    ∧ (acceptinet6 ret slen a6 = .error ret ↔ slen ≠ sizeOfInet6SockAddr)
    ∧ (acceptinet6 ret slen a6 = .ok (ret, a6) ↔ slen = sizeOfInet6SockAddr)
    ∧ (acceptunix ret slen au = .error ret ↔ slen ≠ sizeOfUnixSockAddr)
    ∧ (acceptunix ret slen au = .ok (ret, au) ↔ slen = sizeOfUnixSockAddr) := by
  intro ret slen a4 a6 au
  unfold acceptinet acceptinet6 acceptunix
  refine ⟨?_, ?_, ?_, ?_, ?_, ?_⟩ <;> split <;> simp_all

/-- C3: connect marshals Inet and Inet6 targets to exactly the record
and declared size that bind produces; on the Unix target the dispatch
is not identical: bind (safe.rs) builds the truncated NUL-padded
record for the path "ab" while connect's copy loop panics on it. -/
theorem connect_bind_dispatch :
    (∀ addr port,
        safe_connect_marshal (.Inet addr port) = some (safe_bind_marshal (.Inet addr port)))
  ∧ (∀ addr port,
        safe_connect_marshal (.Inet6 addr port) = some (safe_bind_marshal (.Inet6 addr port)))
  ∧ safe_bind_marshal (.Unix [97, 98]) =
      (.unix { family := 1, path := [97, 98] ++ List.replicate 106 0 }, sizeOfUnixSockAddr)
  ∧ safe_connect_marshal (.Unix [97, 98]) = none := by
  refine ⟨fun addr port => rfl, fun addr port => rfl, by decide, by decide⟩

/-- C4 counterexample: in the execution with one explicit close() call
followed by the handle's destruction, the release operation runs twice
on the descriptor (here 3), refuting the claim that it is never invoked
a second time. -/
theorem close_drop_double_release :
    lifetimeReleases 3 1 = [3, 3] ∧ (lifetimeReleases 3 1).count 3 = 2 := by decide

/-- C4 amended: the descriptor is released once per explicit close()
call and once more at destruction, since Drop unconditionally calls
close(); n explicit closes followed by destruction release it n + 1
times. -/
theorem lifetime_release_count : ∀ (fd : Int) (n : Nat),
    lifetimeReleases fd n = List.replicate (n + 1) fd := by
  intro fd n
  induction n with
  | zero => rfl
  | succ n ih =>
    simp [lifetimeReleases, socketCloseReleases, ih, List.replicate_succ]

/-- C8: read and write fail with the raw OS result exactly when it is
negative and succeed with it otherwise; a zero-byte read is success
with value 0. -/
theorem read_write_sign_rule : ∀ ret : Int,
    (socketRead ret = .error ret ↔ ret < 0)
  ∧ (socketRead ret = .ok ret ↔ 0 ≤ ret)
  ∧ (socketWrite ret = .error ret ↔ ret < 0)
  ∧ (socketWrite ret = .ok ret ↔ 0 ≤ ret)
  ∧ socketRead 0 = .ok 0 := by
  intro ret
  unfold socketRead socketWrite
  refine ⟨?_, ?_, ?_, ?_, by norm_num⟩ <;> split <;> simp_all

/-- C9: from any starting flag word, setblocking true then false leaves
the O_NONBLOCK bit set, and setblocking false then true leaves it
cleared. -/
theorem setblocking_toggle : ∀ flags : Nat,
    setblocking (setblocking flags true) false &&& O_NONBLOCK = O_NONBLOCK
  ∧ setblocking (setblocking flags false) true &&& O_NONBLOCK = 0 := by
  intro flags
  unfold setblocking O_NONBLOCK
  simp only [if_true, if_false, Bool.false_eq_true]
  constructor
  · have h : (2048 : Nat) = 2 ^ 11 := by norm_num
    rw [h, Nat.and_two_pow, Nat.testBit_lor, @Nat.testBit_two_pow_self 11]
    simp
  · have h : (2048 : Nat) = 2 ^ 11 := by norm_num
    rw [h, Nat.and_two_pow, Nat.testBit_land]
    have hm : ((0xFFFFFFFF : Nat) ^^^ 2 ^ 11).testBit 11 = false := by decide
    rw [hm]
    simp

/-- C5: in the canonical spec parser, the first segment among the first
four that fails to parse as an unsigned integer of at most 255 yields a
failure carrying its 0-based index; fewer than four segments is valid,
the missing trailing octets being zero; concretely the input
127.168.john.p fails at index 2, the input 127.512.711.299 fails at
index 1, and the input 127.64 yields 0x7f400000. -/
theorem inet_addr_spec_claims :
    (∀ (s : List Char) (i : Nat),
        i < ((splitDots s).take 4).length →
        (∀ j, j < i → (parseU8 (((splitDots s).take 4).getD j [])).isSome) →
        parseU8 (((splitDots s).take 4).getD i []) = none →
        inet_addr_spec s = .error i)
  ∧ (∀ s : List Char,
        (splitDots s).length < 4 →
        (∀ j, j < (splitDots s).length → (parseU8 ((splitDots s).getD j [])).isSome) →
        ∃ v, inet_addr_spec s = .ok v ∧ v % 2 ^ (8 * (4 - (splitDots s).length)) = 0)
  ∧ inet_addr_spec "127.168.john.p".toList = .error 2
  ∧ inet_addr_spec "127.512.711.299".toList = .error 1
  ∧ inet_addr_spec "127.64".toList = .ok 0x7f400000 := by
  refine ⟨?_, ?_, by rfl, by rfl, by rfl⟩
  · intro s i hi hall hfail
    have h := parseOctets_error ((splitDots s).take 4) 0 i hi hall hfail
    simp only [inet_addr_spec, h, Nat.zero_add]
  · intro s h4 hall
    have htake : (splitDots s).take 4 = splitDots s := List.take_of_length_le (by omega)
    obtain ⟨vs, hvs, hlen⟩ := parseOctets_ok (splitDots s) 0 hall
    refine ⟨combine4 vs, ?_, ?_⟩
    · simp only [inet_addr_spec, htake, hvs]
    · rw [← hlen]
      exact combine4_pad vs (by omega)

/-- C5 witness: the general failure-index statement applied to the
concrete input x.2, whose segment at index 0 fails to parse. -/
theorem inet_addr_spec_claims_witness : inet_addr_spec "x.2".toList = .error 0 :=
  inet_addr_spec_claims.1 "x.2".toList 0 (by decide)
    (fun j hj => absurd hj (Nat.not_lt_zero j)) (by decide)

/-- C6: on an input whose first four dot-separated segments parse as
u8 values x, y, z, w, inet_addr returns the 32-bit value with x in
bits 24-31, y in bits 16-23, z in bits 8-15 and w in bits 0-7,
whatever further segments follow (they are never parsed). -/
theorem inet_addr_quad (s a b c d : List Char) (rest : List (List Char)) (x y z w : Nat)
    (hs : splitDots s = a :: b :: c :: d :: rest)
    (ha : parseU8 a = some x) (hb : parseU8 b = some y)
    (hc : parseU8 c = some z) (hd : parseU8 d = some w) :
    inet_addr s = some (x * 2 ^ 24 + y * 2 ^ 16 + z * 2 ^ 8 + w)
  ∧ x * 2 ^ 24 + y * 2 ^ 16 + z * 2 ^ 8 + w < 2 ^ 32
  ∧ (x * 2 ^ 24 + y * 2 ^ 16 + z * 2 ^ 8 + w) >>> (8 * (3 - 0)) % 256 = x
  ∧ (x * 2 ^ 24 + y * 2 ^ 16 + z * 2 ^ 8 + w) >>> (8 * (3 - 1)) % 256 = y
  ∧ (x * 2 ^ 24 + y * 2 ^ 16 + z * 2 ^ 8 + w) >>> (8 * (3 - 2)) % 256 = z
  ∧ (x * 2 ^ 24 + y * 2 ^ 16 + z * 2 ^ 8 + w) >>> (8 * (3 - 3)) % 256 = w := by
  have hx := parseU8_le a x ha
  have hy := parseU8_le b y hb
  have hz := parseU8_le c z hc
  have hw := parseU8_le d w hd
  refine ⟨?_, by norm_num; omega, ?_, ?_, ?_, ?_⟩
  · rw [inet_addr_eval s a b c d rest x y z w hs ha hb hc hd]
    exact congrArg some (quad_compose x y z w hy hz hw)
  · rw [Nat.shiftRight_eq_div_pow]
    norm_num
    omega
  · rw [Nat.shiftRight_eq_div_pow]
    norm_num
    omega
  · rw [Nat.shiftRight_eq_div_pow]
    norm_num
    omega
  · rw [Nat.shiftRight_eq_div_pow]
    norm_num
    omega

/-- C6 witness: the dotted-quad theorem applied to the concrete input
127.64.32.8, giving 0x7f402008. -/
theorem inet_addr_quad_witness : inet_addr "127.64.32.8".toList = some 0x7f402008 := by
  have h := (inet_addr_quad "127.64.32.8".toList "127".toList "64".toList "32".toList
    "8".toList [] 127 64 32 8 (by decide) (by decide) (by decide) (by decide) (by decide)).1
  norm_num at h
  exact h

/-- C7: the IPv4 record carries family 2, its port and address fields
hold the network-order (big-endian) bytes of the host-order inputs, and
the reserved field is zero; the IPv6 record carries family 10, the
network-order port, the address written byte-by-byte most significant
first, and zero flow-info and scope-id; the Unix record carries family
1.  Each family field equals the numeric value of its variant's
AddressFamily constant. -/
theorem wire_record_layout :
    ∀ (ipaddr4 port ipaddr6 : Nat) (path : List Nat),
      (bind_inet_rec ipaddr4 port).family = AddressFamily.Inet.toNat
    ∧ AddressFamily.Inet.toNat = 2
    ∧ leBytes16 ((bind_inet_rec ipaddr4 port).port) = beBytes16 port
    ∧ leBytes32 ((bind_inet_rec ipaddr4 port).addr) = beBytes32 ipaddr4
    ∧ (bind_inet_rec ipaddr4 port).reserved = 0
    ∧ (bind_inet6_rec ipaddr6 port).family = AddressFamily.Inet6.toNat
    ∧ AddressFamily.Inet6.toNat = 10
    ∧ leBytes16 ((bind_inet6_rec ipaddr6 port).port) = beBytes16 port
    ∧ (bind_inet6_rec ipaddr6 port).addr = beBytes128 ipaddr6
    ∧ (bind_inet6_rec ipaddr6 port).flowinfo = 0
    ∧ (bind_inet6_rec ipaddr6 port).scopeid = 0
    ∧ (bind_unix_rec path).family = AddressFamily.Unix.toNat
    ∧ AddressFamily.Unix.toNat = 1 := by
  intro ipaddr4 port ipaddr6 path
  have hport : leBytes16 (htons port) = beBytes16 port := by
    have h := swap16_bytes (port % 256) (port / 256 % 256) (by omega) (by omega)
    simp only [leBytes16, beBytes16, htons, List.cons.injEq, and_true]
    exact ⟨h.1, h.2⟩
  have haddr : leBytes32 (htonl ipaddr4) = beBytes32 ipaddr4 := by
    have h := swap32_bytes (ipaddr4 % 256) (ipaddr4 / 2 ^ 8 % 256) (ipaddr4 / 2 ^ 16 % 256)
      (ipaddr4 / 2 ^ 24 % 256) (by omega) (Nat.mod_lt _ (by norm_num))
      (Nat.mod_lt _ (by norm_num)) (Nat.mod_lt _ (by norm_num))
    simp only [leBytes32, beBytes32, htonl, List.cons.injEq, and_true]
    exact ⟨h.1, h.2.1, h.2.2.1, h.2.2.2⟩
  exact ⟨rfl, rfl, hport, haddr, rfl, rfl, rfl, hport, inet6Bytes_be ipaddr6, rfl, rfl,
    rfl, rfl⟩

/-- C10: inet_addr completes without panicking (every unwrap succeeds,
modelled by an isSome result) on any input with at least four
dot-separated segments whose first four parse as u8 values. -/
theorem inet_addr_total_on_wellformed (s a b c d : List Char) (rest : List (List Char))
    (x y z w : Nat)
    (hs : splitDots s = a :: b :: c :: d :: rest)
    (ha : parseU8 a = some x) (hb : parseU8 b = some y)
    (hc : parseU8 c = some z) (hd : parseU8 d = some w) :
    (inet_addr s).isSome = true := by
  rw [inet_addr_eval s a b c d rest x y z w hs ha hb hc hd]
  rfl

/-- C10 witness: the no-panic theorem applied to the concrete input
0.0.0.0. -/
theorem inet_addr_total_on_wellformed_witness : (inet_addr "0.0.0.0".toList).isSome = true :=
  inet_addr_total_on_wellformed "0.0.0.0".toList "0".toList "0".toList "0".toList "0".toList
    [] 0 0 0 0 (by decide) (by decide) (by decide) (by decide) (by decide)

end Mzsocket
